import Mathlib

/-!
Shallow embedding of `src/amdsmi_cli/amdsmi_logger.py` (class `AMDSMILogger`):
the output-shaping pipeline of the amdsmi CLI logger.  Python dictionaries are
modelled as insertion-ordered association lists with Python's assignment
semantics (replace in place when the key exists, append otherwise); Python
values are modelled by the recursive `Value` type.  Errors raised by the
Python runtime are modelled by the `PyErr` type, and each fallible operation
returns the error (if any) together with the post-state.
-/

/-- A Python value as it appears in telemetry records: scalar (string,
integer, boolean), list, or dict (insertion-ordered, string keys). -/
inductive Value : Type where
  | str  : String → Value
  | int  : Int → Value
  | bool : Bool → Value
  | list : List Value → Value
  | map  : List (String × Value) → Value

/-- Errors the Python code can raise on a given path. -/
inductive PyErr : Type where
  | configError      -- `raise amdsmi_cli_exceptions(self, "Invalid output format given, ...")`
  | typeError        -- item assignment on a non-dict object
  | attrError        -- `.items()` / `.keys()` on a non-dict object
  | valueError       -- csv.DictWriter with extrasaction='raise' on extra fields
  | indexError       -- `stored_csv_output[0]` on an empty list
  | unboundLocal     -- local variable referenced before assignment
deriving DecidableEq

/-- `value.isMap`: Python's `isinstance(value, dict)`. -/
def Value.isMap : Value → Bool
  | .map _ => true
  | _ => false

/-- `value.isList`: Python's `isinstance(value, list)`. -/
def Value.isList : Value → Bool
  | .list _ => true
  | _ => false

/-- Python dict item assignment `d[k] = v`: replace the value in place if the
key is present, append the pair otherwise. -/
def dUpd : List (String × Value) → String → Value → List (String × Value)
  | [], k, v => [(k, v)]
  | p :: l, k, v => if p.1 = k then (k, v) :: l else p :: dUpd l k v

/-- Python dict lookup `d[k]` (first matching key). -/
def dGet : List (String × Value) → String → Option Value
  | [], _ => none
  | p :: l, k => if p.1 = k then some p.2 else dGet l k

/-- Python `d.update(m)`: assign each pair of `m` into `d` in order. -/
def dUpdMany (d : List (String × Value)) (m : List (String × Value)) :
    List (String × Value) :=
  m.foldl (fun acc p => dUpd acc p.1 p.2) d

/-- Lookup inside a `Value` that is expected to be a dict. -/
def vGet (v : Value) (k : String) : Option Value :=
  match v with
  | .map l => dGet l k
  | _ => none

/-- `pat` occurs as a contiguous substring of `hay` (Python's `pat in hay`). -/
def hasSubstr (hay pat : List Char) : Bool :=
  if pat.isPrefixOf hay then true
  else
    match hay with
    | [] => false
    | _ :: t => hasSubstr t pat

/-- The masking test of `_store_output_gpuvsmi`:
`isinstance(value, str) and 'AMDSMI_STATUS' in value`. -/
def isStatusV : Value → Bool
  | .str s => hasSubstr s.data "AMDSMI_STATUS".data
  | _ => false

/-! ### A size measure on values, used to justify the termination of
`flatten_dict`'s recursion (the Python function recurses on dictionaries it
rebuilds, not on subterms). -/

mutual

/-- Size of a value: every scalar or list counts 1, a dict counts 1 plus
one per entry plus the sizes of its values. -/
def sizeV : Value → Nat
  | .str _ => 1
  | .int _ => 1
  | .bool _ => 1
  | .list _ => 1
  | .map l => 1 + sizeM l

/-- Size of a dict's entry list. -/
def sizeM : List (String × Value) → Nat
  | [] => 0
  | (_, v) :: l => 1 + sizeV v + sizeM l

end

theorem sizeV_pos (v : Value) : 1 ≤ sizeV v := by
  cases v <;> simp [sizeV] <;> omega

theorem sizeM_dUpd_le (l : List (String × Value)) (k : String) (v : Value) :
    sizeM (dUpd l k v) ≤ sizeM l + 1 + sizeV v := by
  induction l with
  | nil => simp [dUpd, sizeM]
  | cons p l ih =>
    by_cases h : p.1 = k
    · have := sizeV_pos p.2
      simp [dUpd, h, sizeM]
      omega
    · simp [dUpd, h, sizeM]
      omega

/-- The inner dict-building folds of `flatten_dict` all have this shape:
assign each entry of `m` into the accumulator under a rewritten key. -/
theorem sizeM_foldUpd_le (f : String → String) (m : List (String × Value))
    (acc : List (String × Value)) :
    sizeM (m.foldl (fun a q => dUpd a (f q.1) q.2) acc) ≤ sizeM acc + sizeM m := by
  induction m generalizing acc with
  | nil => simp [sizeM]
  | cons q m ih =>
    calc sizeM ((q :: m).foldl (fun a q => dUpd a (f q.1) q.2) acc)
        = sizeM (m.foldl (fun a q => dUpd a (f q.1) q.2) (dUpd acc (f q.1) q.2)) := by
          simp
      _ ≤ sizeM (dUpd acc (f q.1) q.2) + sizeM m := ih _
      _ ≤ sizeM acc + 1 + sizeV q.2 + sizeM m := by
          have := sizeM_dUpd_le acc (f q.1) q.2; omega
      _ ≤ sizeM acc + sizeM (q :: m) := by
          match q with
          | (k, v) => simp [sizeM]; omega

/-! ### The Flattening Engine (`flatten_dict`, lines 148-201) -/

/-- Lines 181-189 of `flatten_dict`: when the inner dict `value` has more
than one entry, rebuild it as `value_with_parent_key`: each child that is
itself a dict contributes its grandchildren under keys
`parent_key + '_' + child_key`; non-dict children are kept as they are. -/
def vwpkStep (acc : List (String × Value)) (p : String × Value) :
    List (String × Value) :=
  match p with
  | (pk, .map cl) => cl.foldl (fun a q => dUpd a (pk ++ "_" ++ q.1) q.2) acc
  | (pk, cd) => dUpd acc pk cd

/-- The whole `value_with_parent_key` loop of lines 182-188. -/
def buildVWPK (cl : List (String × Value)) : List (String × Value) :=
  cl.foldl vwpkStep []

/-- Lines 180-189: apply the parent-key rebuild only when the dict has more
than one entry (`len(value.values()) > 1`). -/
def vwpkAdjust (cl : List (String × Value)) : List (String × Value) :=
  if 1 < cl.length then buildVWPK cl else cl

/-- Lines 193-196: under gpuvsmi compatibility, for the allow-listed keys,
rebuild the dict with every child key getting the `key + '_'` join. -/
def keyJoinAll (k : String) (cl : List (String × Value)) :
    List (String × Value) :=
  cl.foldl (fun a q => dUpd a (k ++ "_" ++ q.1) q.2) []

/-- The allow-list of line 192. -/
def gpuvKeys : List String := ["asic", "bus", "pcie", "vbios", "board", "limit"]

/-- Lines 191-196: the gpuvsmi-only key-joining pass (`g` is
`self.is_gpuvsmi_compatibility()`). -/
def gpuvAdjust (g : Bool) (k : String) (cl : List (String × Value)) :
    List (String × Value) :=
  if g ∧ k ∈ gpuvKeys then keyJoinAll k cl else cl

theorem sizeM_vwpkStep_le (acc : List (String × Value)) (p : String × Value) :
    sizeM (vwpkStep acc p) ≤ sizeM acc + 1 + sizeV p.2 := by
  match p with
  | (pk, .map cl) =>
    have := sizeM_foldUpd_le (fun ck => pk ++ "_" ++ ck) cl acc
    simp only [vwpkStep, sizeV]
    omega
  | (pk, .str s) => exact sizeM_dUpd_le acc pk (.str s)
  | (pk, .int n) => exact sizeM_dUpd_le acc pk (.int n)
  | (pk, .bool b) => exact sizeM_dUpd_le acc pk (.bool b)
  | (pk, .list vs) => exact sizeM_dUpd_le acc pk (.list vs)

theorem sizeM_buildVWPK_le (cl : List (String × Value)) :
    sizeM (buildVWPK cl) ≤ sizeM cl := by
  suffices h : ∀ (cl acc : List (String × Value)),
      sizeM (cl.foldl vwpkStep acc) ≤ sizeM acc + sizeM cl by
    have := h cl []
    simpa [buildVWPK, sizeM] using this
  intro cl
  induction cl with
  | nil => intro acc; simp [sizeM]
  | cons p cl ih =>
    intro acc
    calc sizeM ((p :: cl).foldl vwpkStep acc)
        = sizeM (cl.foldl vwpkStep (vwpkStep acc p)) := by simp
      _ ≤ sizeM (vwpkStep acc p) + sizeM cl := ih _
      _ ≤ sizeM acc + 1 + sizeV p.2 + sizeM cl := by
          have := sizeM_vwpkStep_le acc p; omega
      _ ≤ sizeM acc + sizeM (p :: cl) := by
          match p with
          | (k, v) => simp [sizeM]; omega

theorem sizeM_vwpkAdjust_le (cl : List (String × Value)) :
    sizeM (vwpkAdjust cl) ≤ sizeM cl := by
  unfold vwpkAdjust
  split
  · exact sizeM_buildVWPK_le cl
  · exact Nat.le_refl _

theorem sizeM_gpuvAdjust_le (g : Bool) (k : String)
    (cl : List (String × Value)) : sizeM (gpuvAdjust g k cl) ≤ sizeM cl := by
  unfold gpuvAdjust
  split
  · have := sizeM_foldUpd_le (fun ck => k ++ "_" ++ ck) cl []
    simpa [keyJoinAll, sizeM] using this
  · exact Nat.le_refl _

theorem sizeM_adjusted_lt (g : Bool) (k : String)
    (cl l : List (String × Value)) :
    sizeM (gpuvAdjust g k (vwpkAdjust cl)) < sizeM ((k, Value.map cl) :: l) := by
  have h1 := sizeM_vwpkAdjust_le cl
  have h2 := sizeM_gpuvAdjust_le g k (vwpkAdjust cl)
  simp [sizeM, sizeV]
  omega

/-- The main loop of `flatten_dict` (lines 171-201): walk the entries of
`target_dict` in order; a non-dict value is assigned under its key
(line 200); a dict value is first rebuilt by `vwpkAdjust` (lines 180-189)
and `gpuvAdjust` (lines 191-196), then its recursive flattening (started
from a fresh `{}`) is merged into the accumulated output dict with
`output_dict.update(...)` (line 198). -/
def flattenGo (g : Bool) (acc : List (String × Value)) :
    List (String × Value) → List (String × Value)
  | [] => acc
  | (k, v) :: rest =>
    match v with
    | .map cl =>
      flattenGo g (dUpdMany acc (flattenGo g [] (gpuvAdjust g k (vwpkAdjust cl)))) rest
    | _ => flattenGo g (dUpd acc k v) rest
termination_by l => sizeM l
decreasing_by
  all_goals first
    | apply sizeM_adjusted_lt
    | (simp [sizeM, sizeV]; try omega)

/-- `flatten_dict(target_dict)` under compatibility flag `g`
(`g = true` models `self.is_gpuvsmi_compatibility()`). -/
def flatten_dict (g : Bool) (target_dict : List (String × Value)) :
    List (String × Value) :=
  flattenGo g [] target_dict

example : flatten_dict false
    [("usage", .map [("gfx_usage", .int 0), ("mem_usage", .int 0),
                     ("mm_usage_list", .list [.int 22, .int 0, .int 0])])] =
    [("gfx_usage", .int 0), ("mem_usage", .int 0),
     ("mm_usage_list", .list [.int 22, .int 0, .int 0])] := by
  simp [flatten_dict, flattenGo, gpuvAdjust, vwpkAdjust, buildVWPK, vwpkStep,
        dUpdMany, dUpd, gpuvKeys]

example : flatten_dict false [("p", .map [("x", .int 1)]), ("x", .int 2)] =
    [("x", .int 2)] := by
  simp [flatten_dict, flattenGo, gpuvAdjust, vwpkAdjust, buildVWPK, vwpkStep,
        dUpdMany, dUpd, gpuvKeys]

/-! ### The logger object and the store operations (lines 33-42, 204-289) -/

/-- The mutable fields of an `AMDSMILogger` instance relevant to storing and
printing.  `output` is a `Value` because the Python attribute can in
principle hold any object (the store paths require a dict and raise a
TypeError otherwise); `watch_output` is the list of
`{'timestamp': ..., 'values': ...}` samples.  The `destination` attribute is
not part of this structure: the print models below take the destination
branch as an explicit argument. -/
structure AMDSMILogger : Type where
  output : Value
  multiple_device_output : List Value
  watch_output : List (Int × Value)
  compatibility : String
  format : String

/-- `self.is_gpuvsmi_compatibility()` (line 78). -/
def isGpuv (L : AMDSMILogger) : Bool := L.compatibility = "gpuvsmi"

/-- `_store_output_amdsmi` (lines 224-242).  Returns the raised error (if
any) together with the logger state after the call. -/
def store_output_amdsmi (L : AMDSMILogger) (gpu_id : Int) (argument : String)
    (data : Value) : Option PyErr × AMDSMILogger :=
  if L.format = "json" ∨ L.format = "human_readable" then
    match L.output with
    | .map out =>
      let out := dUpd out "gpu" (.int gpu_id)
      match data with
      | .map dl =>
        if argument = "values" then (none, { L with output := .map (dUpdMany out dl) })
        else (none, { L with output := .map (dUpd out argument (.map dl)) })
      | _ => (none, { L with output := .map (dUpd out argument data) })
    | _ => (some .typeError, L)
  else if L.format = "csv" then
    match L.output with
    | .map out =>
      let out := dUpd out "gpu" (.int gpu_id)
      if argument = "values" ∨ data.isMap then
        match data with
        | .map dl =>
          (none, { L with output := .map (dUpdMany out (flatten_dict (isGpuv L) dl)) })
        | _ =>
          -- `self.flatten_dict(data)` calls `data.items()` on a non-dict:
          -- AttributeError, after `self.output['gpu']` was already assigned.
          (some .attrError, { L with output := .map out })
      else (none, { L with output := .map (dUpd out argument data) })
    | _ => (some .typeError, L)
  else (some .configError, L)

/-- `_store_output_rocmsmi` (lines 245-256): a `pass` for each of the three
supported formats, an error otherwise. -/
def store_output_rocmsmi (L : AMDSMILogger) (_gpu_id : Int)
    (_argument : String) (_data : Value) : Option PyErr × AMDSMILogger :=
  if L.format = "json" then (none, L)
  else if L.format = "csv" then (none, L)
  else if L.format = "human_readable" then (none, L)
  else (some .configError, L)

/-- One iteration of the `gpuv_flat_dict` loop of lines 273-284: assign the
pair, mask string values containing `AMDSMI_STATUS` to `'N/A'`, and rename
`bdf`/`uuid` keys to `gpu_bdf`/`gpu_uuid` via `pop`. -/
def gpuvStep (acc : List (String × Value)) (p : String × Value) :
    List (String × Value) :=
  let acc1 := dUpd acc p.1 p.2
  let acc2 := if isStatusV p.2 then dUpd acc1 p.1 (.str "N/A") else acc1
  if p.1 = "bdf" ∨ p.1 = "uuid" then
    match dGet acc2 p.1 with
    | some v => dUpd (acc2.eraseP (fun q => q.1 = p.1)) ("gpu_" ++ p.1) v
    | none => acc2   -- unreachable: the key was assigned two lines above
  else acc2

/-- The whole post-process pass of lines 272-286 (build `gpuv_flat_dict`
from the accumulated output, then replace `self.output` with it). -/
def gpuvPost (out : List (String × Value)) : List (String × Value) :=
  out.foldl gpuvStep []

/-- `_store_output_gpuvsmi` (lines 259-289). -/
def store_output_gpuvsmi (L : AMDSMILogger) (gpu_id : Int) (argument : String)
    (data : Value) : Option PyErr × AMDSMILogger :=
  if L.format = "json" ∨ L.format = "human_readable" then
    match L.output with
    | .map out =>
      let out := dUpd out "gpu" (.int gpu_id)
      (none, { L with output := .map (dUpd out argument data) })
    | _ => (some .typeError, L)
  else if L.format = "csv" then
    match L.output with
    | .map out =>
      let out := dUpd out "gpu" (.int gpu_id)
      if argument = "values" ∨ data.isMap then
        match data with
        | .map dl =>
          (none, { L with output := Value.map (gpuvPost (dUpdMany out (flatten_dict (isGpuv L) dl))) })
        | _ => (some .attrError, { L with output := .map out })
      else
        (none, { L with output := .map (gpuvPost (dUpd out argument data)) })
    | _ => (some .typeError, L)
  else (some .configError, L)

/-- `store_output` (lines 204-221): resolve the gpu id (the resolver is an
external helper, so the resolved `gpu_id` is taken as an argument here) and
dispatch on the compatibility.  No branch matches an unknown compatibility:
the call is then a no-op. -/
def store_output (L : AMDSMILogger) (gpu_id : Int) (argument : String)
    (data : Value) : Option PyErr × AMDSMILogger :=
  if L.compatibility = "amdsmi" then store_output_amdsmi L gpu_id argument data
  else if L.compatibility = "rocmsmi" then store_output_rocmsmi L gpu_id argument data
  else if L.compatibility = "gpuvsmi" then store_output_gpuvsmi L gpu_id argument data
  else (none, L)

/-- `store_watch_output` (lines 307-319): append a
`{'timestamp': ts, 'values': ...}` sample; `values` is the current output,
or the multiple-device output list when `multiple_devices` is set.  The
timestamp comes from `time.time()`, an external input taken as an argument. -/
def store_watch_output (ts : Int) (multiple_devices : Bool)
    (L : AMDSMILogger) : AMDSMILogger :=
  { L with watch_output := L.watch_output ++
      [(ts, if multiple_devices then .list L.multiple_device_output else L.output)] }

/-! ### The tabular emitter (`_print_csv_output`, lines 363-389)

The emitter is modelled at the level of the header and data rows handed to
`csv.DictWriter`.  Both the stdout branch (lines 373-383) and the file
branch (lines 384-389) compute the same `csv_header = stored_csv_output[0].keys()`
and write the same rows through `csv.DictWriter(_, csv_header)`, so one
function covers both destinations; the dialect-C quote stripping of line 381
only rewrites the rendered text and does not change the row structure. -/

/-- `csv.DictWriter` row conversion with the default `extrasaction='raise'`
and `restval=''`: a key of the record outside the field names raises a
ValueError; otherwise the row lists `record.get(f, '')` for each field in
order. -/
def dictWriterRow (fieldnames : List String) (rec : List (String × Value)) :
    Except PyErr (List Value) :=
  if rec.any (fun p => ¬ fieldnames.contains p.1) then .error .valueError
  else .ok (fieldnames.map (fun f => (dGet rec f).getD (.str "")))

/-- Sequential row writing: the first failing row aborts with its error. -/
def writeRows (fieldnames : List String) :
    List Value → Except PyErr (List (List Value))
  | [] => .ok []
  | r :: rs =>
    match r with
    | .map rl => do
      let row ← dictWriterRow fieldnames rl
      let rows ← writeRows fieldnames rs
      return row :: rows
    | _ => .error .attrError   -- `rowdict.keys()` on a non-dict row

/-- `_print_csv_output(multiple_device_output, watch_output)`.  Returns
`none` inside `ok` for the early watch return (line 364-365: nothing is
printed), or the `(header, rows)` structure written by `csv.DictWriter`.
`stored_csv_output` is assigned only when `multiple_device_output` is set or
`self.output` is not a list (lines 367-371); otherwise line 374 reads an
unbound local. -/
def print_csv_output (L : AMDSMILogger) (multiple_device_output watch_output : Bool) :
    Except PyErr (Option (List String × List (List Value))) :=
  if watch_output then .ok none
  else
    let stored? : Option (List Value) :=
      if multiple_device_output then some L.multiple_device_output
      else if ¬ L.output.isList then some [L.output] else none
    match stored? with
    | none => .error .unboundLocal
    | some stored =>
      match stored with
      | [] => .error .indexError   -- `stored_csv_output[0]` on an empty list
      | first :: _ =>
        match first with
        | .map hl => do
          let rows ← writeRows (hl.map (·.1)) stored
          return some (hl.map (·.1), rows)
        | _ => .error .attrError   -- `.keys()` on a non-dict

/-! ### The structured-data emitter (`_print_json_output`, lines 342-360),
file-destination branch.  The file is modelled as the list of JSON
documents written to it, in order; `open('a')` appends a document,
`open('w')` replaces the whole content. -/

/-- The `{'timestamp': ..., 'values': ...}` sample list dumped by the watch
flush (line 357), as one JSON document. -/
def watchDump (L : AMDSMILogger) : Value :=
  .list (L.watch_output.map (fun s => .map [("timestamp", .int s.1), ("values", s.2)]))

/-- `_print_json_output` when `self.destination` is a file (lines 354-360):
a watch flush opens the file in overwrite mode and dumps the entire
`self.watch_output`; otherwise the current output (or the multiple-device
list) is appended. -/
def print_json_output_file (L : AMDSMILogger) (file : List Value)
    (multiple_device_output watch_output : Bool) : List Value :=
  if watch_output then [watchDump L]
  else file ++ [if multiple_device_output then .list L.multiple_device_output else L.output]

/-! ### Generic facts about the dict model -/

theorem mem_dUpd {l : List (String × Value)} {k : String} {v : Value}
    {p : String × Value} (h : p ∈ dUpd l k v) : p ∈ l ∨ p = (k, v) := by
  induction l with
  | nil => simpa [dUpd] using h
  | cons q l ih =>
    by_cases hq : q.1 = k
    · simp [dUpd, hq] at h
      rcases h with h | h
      · right; simp [h]
      · left; simp [h]
    · simp [dUpd, hq] at h
      rcases h with h | h
      · left; simp [h]
      · rcases ih h with h | h
        · left; simp [h]
        · right; exact h

theorem dUpd_dUpd_same (l : List (String × Value)) (k : String) (v w : Value) :
    dUpd (dUpd l k v) k w = dUpd l k w := by
  induction l with
  | nil => simp [dUpd]
  | cons q l ih =>
    by_cases hq : q.1 = k
    · simp [dUpd, hq]
    · simp [dUpd, hq, ih]

theorem dGet_dUpd_self (l : List (String × Value)) (k : String) (v : Value) :
    dGet (dUpd l k v) k = some v := by
  induction l with
  | nil => simp [dUpd, dGet]
  | cons q l ih =>
    by_cases hq : q.1 = k
    · simp [dUpd, hq, dGet]
    · simp [dUpd, hq, dGet, ih]

theorem dGet_dUpd_ne (l : List (String × Value)) {k' k : String} (v : Value)
    (h : k' ≠ k) : dGet (dUpd l k' v) k = dGet l k := by
  induction l with
  | nil => simp [dUpd, dGet, h]
  | cons q l ih =>
    by_cases hq : q.1 = k'
    · simp [dUpd, dGet, hq, h]
    · simp [dUpd, hq, dGet, ih]

theorem dGet_mem {l : List (String × Value)} {k : String} {v : Value}
    (h : dGet l k = some v) : (k, v) ∈ l := by
  induction l with
  | nil => simp [dGet] at h
  | cons q l ih =>
    by_cases hq : q.1 = k
    · subst hq
      simp [dGet] at h
      subst h
      exact .head _
    · simp [dGet, hq] at h
      exact .tail _ (ih h)

theorem dGet_dUpdMany_ne (m : List (String × Value)) (acc : List (String × Value))
    {k : String} (h : ∀ q ∈ m, q.1 ≠ k) :
    dGet (dUpdMany acc m) k = dGet acc k := by
  induction m generalizing acc with
  | nil => simp [dUpdMany]
  | cons q m ih =>
    have hq : q.1 ≠ k := h q (.head _)
    calc dGet (dUpdMany acc (q :: m)) k
        = dGet (dUpdMany (dUpd acc q.1 q.2) m) k := by simp [dUpdMany]
      _ = dGet (dUpd acc q.1 q.2) k := ih _ (fun p hp => h p (.tail _ hp))
      _ = dGet acc k := dGet_dUpd_ne _ _ hq

theorem mem_dUpdMany {m acc : List (String × Value)} {p : String × Value}
    (h : p ∈ dUpdMany acc m) : p ∈ acc ∨ p ∈ m := by
  induction m generalizing acc with
  | nil => exact .inl h
  | cons q m ih =>
    have h' : p ∈ dUpdMany (dUpd acc q.1 q.2) m := by simpa [dUpdMany] using h
    rcases ih h' with h'' | h''
    · rcases mem_dUpd h'' with h3 | h3
      · exact .inl h3
      · have hpq : p = q := by cases q; simpa using h3
        exact .inr (by rw [hpq]; exact .head _)
    · exact .inr (.tail _ h'')

/-- The key list of a dict. -/
def keys (l : List (String × Value)) : List String := l.map (·.1)

theorem mem_keys_dUpd {l : List (String × Value)} {k k' : String} {v : Value} :
    k' ∈ keys (dUpd l k v) ↔ k' ∈ keys l ∨ k' = k := by
  induction l with
  | nil => simp [dUpd, keys]
  | cons q l ih =>
    by_cases hq : q.1 = k
    · subst hq
      simp [dUpd, keys]
      tauto
    · simp [dUpd, hq, keys] at ih ⊢
      tauto

theorem keys_dUpd_nodup {l : List (String × Value)} (k : String) (v : Value)
    (h : (keys l).Nodup) : (keys (dUpd l k v)).Nodup := by
  induction l with
  | nil => simp [dUpd, keys]
  | cons q l ih =>
    by_cases hq : q.1 = k
    · subst hq
      have hd : dUpd (q :: l) q.1 v = (q.1, v) :: l := by simp [dUpd]
      rw [hd]
      have hk : keys ((q.1, v) :: l) = q.1 :: keys l := rfl
      have hk' : keys (q :: l) = q.1 :: keys l := rfl
      rw [hk]
      rw [hk'] at h
      exact h
    · have hd : dUpd (q :: l) k v = q :: dUpd l k v := by simp [dUpd, hq]
      rw [hd]
      have hk : keys (q :: dUpd l k v) = q.1 :: keys (dUpd l k v) := rfl
      have hk' : keys (q :: l) = q.1 :: keys l := rfl
      rw [hk, List.nodup_cons]
      rw [hk', List.nodup_cons] at h
      refine ⟨fun hmem => ?_, ih h.2⟩
      rcases mem_keys_dUpd.1 hmem with hx | hx
      · exact h.1 hx
      · exact hq hx

theorem keys_dUpdMany_nodup {m acc : List (String × Value)}
    (h : (keys acc).Nodup) : (keys (dUpdMany acc m)).Nodup := by
  induction m generalizing acc with
  | nil => exact h
  | cons q m ih =>
    have : dUpdMany acc (q :: m) = dUpdMany (dUpd acc q.1 q.2) m := by
      simp [dUpdMany]
    rw [this]
    exact ih (keys_dUpd_nodup _ _ h)

theorem dGet_eraseP_ne (l : List (String × Value)) {k k' : String}
    (h : k ≠ k') : dGet (l.eraseP (fun q => q.1 = k)) k' = dGet l k' := by
  induction l with
  | nil => simp [dGet]
  | cons q l ih =>
    by_cases hq : q.1 = k
    · have he : (q :: l).eraseP (fun q => q.1 = k) = l := by
        simp [List.eraseP_cons, hq]
      have hne : q.1 ≠ k' := by rw [hq]; exact h
      rw [he]
      simp [dGet, hne]
    · have he : (q :: l).eraseP (fun q => q.1 = k) =
          q :: l.eraseP (fun q => q.1 = k) := by
        simp [List.eraseP_cons, hq]
      rw [he]
      by_cases hk' : q.1 = k'
      · simp [dGet, hk']
      · simp [dGet, hk', ih]


/-! ### Facts about the gpuvsmi post-process pass -/

theorem renameStep_clean (acc2 : List (String × Value)) (k : String)
    (h : ∀ p ∈ acc2, isStatusV p.2 = false) :
    ∀ p ∈ (if k = "bdf" ∨ k = "uuid" then
            match dGet acc2 k with
            | some v => dUpd (acc2.eraseP (fun q => q.1 = k)) ("gpu_" ++ k) v
            | none => acc2
          else acc2), isStatusV p.2 = false := by
  by_cases hb : k = "bdf" ∨ k = "uuid"
  · rw [if_pos hb]
    cases hg : dGet acc2 k with
    | none => exact h
    | some w =>
      have hw : isStatusV w = false := h _ (dGet_mem hg)
      intro p hp
      rcases mem_dUpd hp with h1 | h1
      · exact h p ((List.eraseP_sublist _).subset h1)
      · rw [h1]
        exact hw
  · rw [if_neg hb]
    exact h

theorem gpuvStep_clean (acc : List (String × Value)) (q : String × Value)
    (h : ∀ p ∈ acc, isStatusV p.2 = false) :
    ∀ p ∈ gpuvStep acc q, isStatusV p.2 = false := by
  have hNA : isStatusV (.str "N/A") = false := by decide
  have hacc2 : ∀ p ∈ (if isStatusV q.2 = true
      then dUpd (dUpd acc q.1 q.2) q.1 (Value.str "N/A")
      else dUpd acc q.1 q.2), isStatusV p.2 = false := by
    by_cases hs : isStatusV q.2 = true
    · rw [if_pos hs, dUpd_dUpd_same]
      intro p hp
      rcases mem_dUpd hp with h1 | h1
      · exact h p h1
      · rw [h1]; exact hNA
    · rw [if_neg hs]
      intro p hp
      rcases mem_dUpd hp with h1 | h1
      · exact h p h1
      · rw [h1]
        exact Bool.not_eq_true _ |>.mp hs
  intro p hp
  unfold gpuvStep at hp
  exact renameStep_clean _ q.1 hacc2 p hp

theorem gpuvFold_clean (l : List (String × Value)) (acc : List (String × Value))
    (h : ∀ p ∈ acc, isStatusV p.2 = false) :
    ∀ p ∈ l.foldl gpuvStep acc, isStatusV p.2 = false := by
  induction l generalizing acc with
  | nil => exact h
  | cons q l ih =>
    intro p hp
    exact ih (gpuvStep acc q) (gpuvStep_clean acc q h) p (by simpa using hp)

/-- Every value of the rebuilt `gpuv_flat_dict` passes the status check:
either it was masked to `'N/A'` or it never contained `AMDSMI_STATUS`. -/
theorem gpuvPost_clean (out : List (String × Value)) :
    ∀ p ∈ gpuvPost out, isStatusV p.2 = false :=
  gpuvFold_clean out [] (by simp)

theorem gpu_join_ne (k : String) : ("gpu_" ++ k) ≠ "gpu" := by
  intro h
  have hlen := congrArg String.length h
  have h4 : "gpu_".length = 4 := rfl
  have h3 : "gpu".length = 3 := rfl
  rw [String.length_append, h4, h3] at hlen
  omega

theorem renameStep_get_ne (acc2 : List (String × Value)) (k : String)
    (hk : k ≠ "gpu") :
    dGet (if k = "bdf" ∨ k = "uuid" then
            match dGet acc2 k with
            | some v => dUpd (acc2.eraseP (fun q => q.1 = k)) ("gpu_" ++ k) v
            | none => acc2
          else acc2) "gpu" = dGet acc2 "gpu" := by
  by_cases hb : k = "bdf" ∨ k = "uuid"
  · rw [if_pos hb]
    cases hg : dGet acc2 k with
    | none => rfl
    | some w => rw [dGet_dUpd_ne _ _ (gpu_join_ne k), dGet_eraseP_ne _ hk]
  · rw [if_neg hb]

theorem gpuvStep_get_ne (acc : List (String × Value)) (q : String × Value)
    (hk : q.1 ≠ "gpu") : dGet (gpuvStep acc q) "gpu" = dGet acc "gpu" := by
  have hacc2 : dGet (if isStatusV q.2 = true
      then dUpd (dUpd acc q.1 q.2) q.1 (Value.str "N/A")
      else dUpd acc q.1 q.2) "gpu" = dGet acc "gpu" := by
    by_cases hs : isStatusV q.2 = true
    · rw [if_pos hs, dUpd_dUpd_same, dGet_dUpd_ne _ _ hk]
    · rw [if_neg hs, dGet_dUpd_ne _ _ hk]
  unfold gpuvStep
  rw [renameStep_get_ne _ _ hk]
  exact hacc2

theorem gpuvFold_get_no_gpu (l : List (String × Value))
    (acc : List (String × Value)) (h : ∀ q ∈ l, q.1 ≠ "gpu") :
    dGet (l.foldl gpuvStep acc) "gpu" = dGet acc "gpu" := by
  induction l generalizing acc with
  | nil => rfl
  | cons q l ih =>
    calc dGet ((q :: l).foldl gpuvStep acc) "gpu"
        = dGet (l.foldl gpuvStep (gpuvStep acc q)) "gpu" := rfl
      _ = dGet (gpuvStep acc q) "gpu" := ih _ (fun p hp => h p (.tail _ hp))
      _ = dGet acc "gpu" := gpuvStep_get_ne _ _ (h q (.head _))

theorem gpuvFold_get_gpu (l : List (String × Value)) (n : Int) :
    ∀ acc, (keys l).Nodup → dGet l "gpu" = some (.int n) →
      dGet (l.foldl gpuvStep acc) "gpu" = some (.int n) := by
  induction l with
  | nil => intro acc _ hg; simp [dGet] at hg
  | cons q l ih =>
    intro acc hnd hg
    rw [show keys (q :: l) = q.1 :: keys l from rfl, List.nodup_cons] at hnd
    by_cases hq : q.1 = "gpu"
    · have hv : q.2 = .int n := by
        simp [dGet, hq] at hg
        exact hg
      have hrest : ∀ p ∈ l, p.1 ≠ "gpu" := by
        intro p hp hpg
        exact hnd.1 (hq ▸ hpg ▸ List.mem_map_of_mem (·.1) hp)
      rw [show (q :: l).foldl gpuvStep acc = l.foldl gpuvStep (gpuvStep acc q) from rfl]
      rw [gpuvFold_get_no_gpu l _ hrest]
      cases q with
      | mk a b =>
        simp only at hq hv
        subst hq
        subst hv
        unfold gpuvStep
        simp [isStatusV, dGet_dUpd_self]
    · have hg' : dGet l "gpu" = some (.int n) := by
        simp [dGet, hq] at hg
        exact hg
      rw [show (q :: l).foldl gpuvStep acc = l.foldl gpuvStep (gpuvStep acc q) from rfl]
      exact ih _ hnd.2 hg'

/-- The gpuvsmi post-process pass preserves the binding of `"gpu"` to the
device id (on a well-formed dict: unique keys). -/
theorem gpuvPost_get_gpu (out : List (String × Value)) (n : Int)
    (hnd : (keys out).Nodup) (hg : dGet out "gpu" = some (.int n)) :
    dGet (gpuvPost out) "gpu" = some (.int n) :=
  gpuvFold_get_gpu out n [] hnd hg

/-! ### Claim theorems -/

/-- C8: under Dialect A (amdsmi) or Dialect C (gpuvsmi), a `store_output`
call whose configured format is none of json, csv, human_readable raises the
configuration error ("Invalid output format given, ...") and leaves the
logger state — in particular the accumulated record — unchanged: no merge
happens on the error path and no default format is substituted. -/
theorem C8_unsupported_format_config_error (L : AMDSMILogger) (gpu_id : Int)
    (argument : String) (data : Value)
    (hc : L.compatibility = "amdsmi" ∨ L.compatibility = "gpuvsmi")
    (hf : ¬ (L.format = "json" ∨ L.format = "csv" ∨ L.format = "human_readable")) :
    store_output L gpu_id argument data = (some .configError, L) := by
  push_neg at hf
  obtain ⟨hf1, hf2, hf3⟩ := hf
  rcases hc with hc | hc
  · simp [store_output, hc, store_output_amdsmi, hf1, hf2, hf3]
  · simp [store_output, hc, store_output_gpuvsmi, hf1, hf2, hf3]

/-- Witness for C8 at a concrete unsupported format. -/
theorem C8_witness :
    store_output ⟨.map [], [], [], "amdsmi", "yaml"⟩ 0 "power" (.int 1) =
      (some .configError, ⟨.map [], [], [], "amdsmi", "yaml"⟩) :=
  C8_unsupported_format_config_error _ 0 "power" (.int 1) (Or.inl rfl) (by decide)

/-- C9: under Dialect B (rocmsmi), a store call in any of the three
supported formats succeeds and leaves the whole logger state (current
record, multi-device output, watch history) unchanged. -/
theorem C9_rocmsmi_store_noop (L : AMDSMILogger) (gpu_id : Int)
    (argument : String) (data : Value) (hc : L.compatibility = "rocmsmi")
    (hf : L.format = "json" ∨ L.format = "csv" ∨ L.format = "human_readable") :
    store_output L gpu_id argument data = (none, L) := by
  rcases hf with hf | hf | hf <;>
    simp [store_output, hc, store_output_rocmsmi, hf]

/-- Witness for C9 at a concrete call. -/
theorem C9_witness :
    store_output ⟨.map [("gpu", .int 0)], [], [], "rocmsmi", "json"⟩ 0 "temp"
        (.map [("edge", .int 40)]) =
      (none, ⟨.map [("gpu", .int 0)], [], [], "rocmsmi", "json"⟩) :=
  C9_rocmsmi_store_noop _ 0 "temp" (.map [("edge", .int 40)]) rfl (Or.inl rfl)

/-- C10: in csv format with `multiple_device_output=False`, when the current
output is a list the local `stored_csv_output` is never assigned (the
assignment at line 371 is guarded by `not isinstance(self.output, list)`),
so the emitter fails with an unbound-local error instead of rendering the
list's records. -/
theorem C10_csv_list_output_unbound (L : AMDSMILogger) (l : List Value)
    (h : L.output = .list l) :
    print_csv_output L false false = .error .unboundLocal := by
  simp [print_csv_output, h, Value.isList]

/-- Witness for C10 at a concrete list-valued output. -/
theorem C10_witness :
    print_csv_output ⟨.list [.map [("a", .int 1)]], [], [], "amdsmi", "csv"⟩
        false false = .error .unboundLocal :=
  C10_csv_list_output_unbound _ [.map [("a", .int 1)]] rfl

/-- C7: in json format with a file destination, a 3-tick watch session
appends one record block per tick, and the final flush (watch_output=True)
overwrites the file with exactly one array holding the 3
`{timestamp, values}` samples — the appended blocks are gone. -/
theorem C7_watch_json_file_flush (L : AMDSMILogger) (f0 : List Value)
    (t1 t2 t3 : Int) (v1 v2 v3 : Value) (h : L.watch_output = []) :
    (let L1 := store_watch_output t1 false { L with output := v1 };
     let f1 := print_json_output_file L1 f0 false false;
     let L2 := store_watch_output t2 false { L1 with output := v2 };
     let f2 := print_json_output_file L2 f1 false false;
     let L3 := store_watch_output t3 false { L2 with output := v3 };
     let f3 := print_json_output_file L3 f2 false false;
     f3 = f0 ++ [v1, v2, v3] ∧
     print_json_output_file L3 f3 false true =
       [Value.list [.map [("timestamp", .int t1), ("values", v1)],
                    .map [("timestamp", .int t2), ("values", v2)],
                    .map [("timestamp", .int t3), ("values", v3)]]]) := by
  simp [store_watch_output, print_json_output_file, watchDump, h]

/-- Witness for C7 at a concrete 3-tick session. -/
theorem C7_witness :
    (let L1 := store_watch_output 1 false
        { (⟨.map [], [], [], "amdsmi", "json"⟩ : AMDSMILogger) with output := Value.int 10 };
     let f1 := print_json_output_file L1 [] false false;
     let L2 := store_watch_output 2 false { L1 with output := Value.int 20 };
     let f2 := print_json_output_file L2 f1 false false;
     let L3 := store_watch_output 3 false { L2 with output := Value.int 30 };
     let f3 := print_json_output_file L3 f2 false false;
     f3 = [] ++ [Value.int 10, Value.int 20, Value.int 30] ∧
     print_json_output_file L3 f3 false true =
       [Value.list [.map [("timestamp", .int 1), ("values", .int 10)],
                    .map [("timestamp", .int 2), ("values", .int 20)],
                    .map [("timestamp", .int 3), ("values", .int 30)]]]) :=
  C7_watch_json_file_flush ⟨.map [], [], [], "amdsmi", "json"⟩ [] 1 2 3
    (.int 10) (.int 20) (.int 30) rfl

/-- C1 (amended): under Dialect C (gpuvsmi) the status-masking post-process
runs in the tabular (csv) format: after a successful csv store, no string
value of the accumulated record contains the substring `AMDSMI_STATUS` —
every such value was replaced by `'N/A'`. -/
theorem C1_amended_gpuvsmi_csv_masks_status (L : AMDSMILogger) (gpu_id : Int)
    (argument : String) (data : Value) (L' : AMDSMILogger)
    (out' : List (String × Value))
    (hc : L.compatibility = "gpuvsmi") (hf : L.format = "csv")
    (hok : store_output L gpu_id argument data = (none, L'))
    (hout : L'.output = .map out') :
    ∀ p ∈ out', isStatusV p.2 = false := by
  have key : ∀ X : List (String × Value),
      L' = { output := Value.map (gpuvPost X),
             multiple_device_output := L.multiple_device_output,
             watch_output := L.watch_output,
             compatibility := "gpuvsmi", format := "csv" } →
      ∀ p ∈ out', isStatusV p.2 = false := by
    intro X hX p hp
    rw [hX] at hout
    simp only [Value.map.injEq] at hout
    rw [← hout] at hp
    exact gpuvPost_clean X p hp
  simp [store_output, store_output_gpuvsmi, hc, hf] at hok
  cases hL : L.output with
  | map out0 =>
    rw [hL] at hok
    cases data with
    | map dl =>
      simp [Value.isMap] at hok
      exact key _ hok.symm
    | str s =>
      by_cases hv : argument = "values"
      · simp [Value.isMap, hv] at hok
      · simp [Value.isMap, hv] at hok
        exact key _ hok.symm
    | int n =>
      by_cases hv : argument = "values"
      · simp [Value.isMap, hv] at hok
      · simp [Value.isMap, hv] at hok
        exact key _ hok.symm
    | bool b =>
      by_cases hv : argument = "values"
      · simp [Value.isMap, hv] at hok
      · simp [Value.isMap, hv] at hok
        exact key _ hok.symm
    | list vs =>
      by_cases hv : argument = "values"
      · simp [Value.isMap, hv] at hok
      · simp [Value.isMap, hv] at hok
        exact key _ hok.symm
  | str s => rw [hL] at hok; simp at hok
  | int n => rw [hL] at hok; simp at hok
  | bool b => rw [hL] at hok; simp at hok
  | list vs => rw [hL] at hok; simp at hok

/-- C1 counterexample: under Dialect C in json format the masking pass does
not run — a stored string containing `AMDSMI_STATUS` stays verbatim in the
record after `store_output` returns, so the claim's "in any of the three
supported formats" is false. -/
theorem C1_counterexample :
    store_output ⟨.map [], [], [], "gpuvsmi", "json"⟩ 7 "status"
        (.str "AMDSMI_STATUS_NOT_SUPPORTED") =
      (none, ⟨.map [("gpu", .int 7),
                    ("status", .str "AMDSMI_STATUS_NOT_SUPPORTED")],
              [], [], "gpuvsmi", "json"⟩) ∧
    isStatusV (.str "AMDSMI_STATUS_NOT_SUPPORTED") = true ∧
    Value.str "AMDSMI_STATUS_NOT_SUPPORTED" ≠ Value.str "N/A" := by
  refine ⟨rfl, by decide, by simp⟩

/-- Witness for C1 (amended) at a concrete csv store of a status string. -/
theorem C1_witness :
    isStatusV (("status", Value.str "N/A") : String × Value).2 = false :=
  C1_amended_gpuvsmi_csv_masks_status
    ⟨.map [], [], [], "gpuvsmi", "csv"⟩ 3 "status"
    (.str "AMDSMI_STATUS_NOT_SUPPORTED")
    ⟨.map [("gpu", .int 3), ("status", .str "N/A")], [], [], "gpuvsmi", "csv"⟩
    [("gpu", .int 3), ("status", .str "N/A")]
    rfl rfl rfl rfl ("status", .str "N/A") (.tail _ (.head _))

theorem not_mem_keys {m : List (String × Value)} {k : String}
    (h : k ∉ keys m) : ∀ q ∈ m, q.1 ≠ k :=
  fun q hq he => h (he ▸ List.mem_map_of_mem (·.1) hq)

theorem store_amdsmi_gpu_key (L : AMDSMILogger) (gpu_id : Int)
    (argument : String) (data : Value) (harg : argument ≠ "gpu")
    (hdata : ∀ dl, data = .map dl →
      "gpu" ∉ keys dl ∧ "gpu" ∉ keys (flatten_dict (isGpuv L) dl))
    (hok : (store_output_amdsmi L gpu_id argument data).1 = none) :
    vGet (store_output_amdsmi L gpu_id argument data).2.output "gpu" =
      some (.int gpu_id) := by
  unfold store_output_amdsmi at hok ⊢
  by_cases hf1 : L.format = "json" ∨ L.format = "human_readable"
  · rw [if_pos hf1] at hok ⊢
    revert hok
    cases hL : L.output with
    | map out0 =>
      intro hok
      have hstep : ∀ w : Value,
          dGet (dUpd (dUpd out0 "gpu" (Value.int gpu_id)) argument w) "gpu" =
            some (Value.int gpu_id) := by
        intro w
        rw [dGet_dUpd_ne _ _ harg, dGet_dUpd_self]
      revert hok
      cases data with
      | map dl =>
        intro hok
        by_cases hv : argument = "values"
        · simp [hv, vGet]
          rw [dGet_dUpdMany_ne _ _ (not_mem_keys (hdata dl rfl).1), dGet_dUpd_self]
        · simp [hv, vGet]
          exact hstep _
      | str s => intro hok; simp [vGet]; exact hstep _
      | int n => intro hok; simp [vGet]; exact hstep _
      | bool b => intro hok; simp [vGet]; exact hstep _
      | list vs => intro hok; simp [vGet]; exact hstep _
    | str s => intro hok; simp at hok
    | int n => intro hok; simp at hok
    | bool b => intro hok; simp at hok
    | list vs => intro hok; simp at hok
  · by_cases hf2 : L.format = "csv"
    · rw [if_neg hf1, if_pos hf2] at hok ⊢
      revert hok
      cases hL : L.output with
      | map out0 =>
        intro hok
        have hstep : ∀ w : Value,
            dGet (dUpd (dUpd out0 "gpu" (Value.int gpu_id)) argument w) "gpu" =
              some (Value.int gpu_id) := by
          intro w
          rw [dGet_dUpd_ne _ _ harg, dGet_dUpd_self]
        revert hok
        cases data with
        | map dl =>
          intro hok
          simp [Value.isMap, vGet]
          rw [dGet_dUpdMany_ne _ _ (not_mem_keys (hdata dl rfl).2), dGet_dUpd_self]
        | str s =>
          intro hok
          by_cases hv : argument = "values"
          · simp [Value.isMap, hv] at hok
          · simp [Value.isMap, hv, vGet]
            exact hstep _
        | int n =>
          intro hok
          by_cases hv : argument = "values"
          · simp [Value.isMap, hv] at hok
          · simp [Value.isMap, hv, vGet]
            exact hstep _
        | bool b =>
          intro hok
          by_cases hv : argument = "values"
          · simp [Value.isMap, hv] at hok
          · simp [Value.isMap, hv, vGet]
            exact hstep _
        | list vs =>
          intro hok
          by_cases hv : argument = "values"
          · simp [Value.isMap, hv] at hok
          · simp [Value.isMap, hv, vGet]
            exact hstep _
      | str s => intro hok; simp at hok
      | int n => intro hok; simp at hok
      | bool b => intro hok; simp at hok
      | list vs => intro hok; simp at hok
    · rw [if_neg hf1, if_neg hf2] at hok
      simp at hok

theorem store_gpuvsmi_gpu_key (L : AMDSMILogger) (gpu_id : Int)
    (argument : String) (data : Value) (harg : argument ≠ "gpu")
    (hdata : ∀ dl, data = .map dl → "gpu" ∉ keys (flatten_dict (isGpuv L) dl))
    (hnd : ∀ out0, L.output = .map out0 → (keys out0).Nodup)
    (hok : (store_output_gpuvsmi L gpu_id argument data).1 = none) :
    vGet (store_output_gpuvsmi L gpu_id argument data).2.output "gpu" =
      some (.int gpu_id) := by
  unfold store_output_gpuvsmi at hok ⊢
  by_cases hf1 : L.format = "json" ∨ L.format = "human_readable"
  · rw [if_pos hf1] at hok ⊢
    revert hok
    cases hL : L.output with
    | map out0 =>
      intro hok
      simp [vGet]
      rw [dGet_dUpd_ne _ _ harg, dGet_dUpd_self]
    | str s => intro hok; simp at hok
    | int n => intro hok; simp at hok
    | bool b => intro hok; simp at hok
    | list vs => intro hok; simp at hok
  · by_cases hf2 : L.format = "csv"
    · rw [if_neg hf1, if_pos hf2] at hok ⊢
      revert hok
      cases hL : L.output with
      | map out0 =>
        intro hok
        have hnd0 := hnd out0 hL
        have hstep : ∀ w : Value,
            dGet (gpuvPost (dUpd (dUpd out0 "gpu" (Value.int gpu_id)) argument w))
              "gpu" = some (Value.int gpu_id) := by
          intro w
          apply gpuvPost_get_gpu
          · exact keys_dUpd_nodup _ _ (keys_dUpd_nodup _ _ hnd0)
          · rw [dGet_dUpd_ne _ _ harg, dGet_dUpd_self]
        revert hok
        cases data with
        | map dl =>
          intro hok
          simp [Value.isMap, vGet]
          apply gpuvPost_get_gpu
          · exact keys_dUpdMany_nodup (keys_dUpd_nodup _ _ hnd0)
          · rw [dGet_dUpdMany_ne _ _ (not_mem_keys (hdata dl rfl)), dGet_dUpd_self]
        | str s =>
          intro hok
          by_cases hv : argument = "values"
          · simp [Value.isMap, hv] at hok
          · simp [Value.isMap, hv, vGet]
            exact hstep _
        | int n =>
          intro hok
          by_cases hv : argument = "values"
          · simp [Value.isMap, hv] at hok
          · simp [Value.isMap, hv, vGet]
            exact hstep _
        | bool b =>
          intro hok
          by_cases hv : argument = "values"
          · simp [Value.isMap, hv] at hok
          · simp [Value.isMap, hv, vGet]
            exact hstep _
        | list vs =>
          intro hok
          by_cases hv : argument = "values"
          · simp [Value.isMap, hv] at hok
          · simp [Value.isMap, hv, vGet]
            exact hstep _
      | str s => intro hok; simp at hok
      | int n => intro hok; simp at hok
      | bool b => intro hok; simp at hok
      | list vs => intro hok; simp at hok
    · rw [if_neg hf1, if_neg hf2] at hok
      simp at hok

/-- C2 (amended): under Dialect A (amdsmi) and Dialect C (gpuvsmi) — but
not Dialect B, which stores nothing — every successful `store_output` call
leaves the record with key `"gpu"` bound to the resolved integer device id,
provided the call does not itself store under the key `"gpu"` (the argument
is not `"gpu"` and the merged dict binds no `"gpu"` key) and the record is a
well-formed dict. -/
theorem C2_amended_gpu_key_dialects_A_C (L : AMDSMILogger) (gpu_id : Int)
    (argument : String) (data : Value)
    (hc : L.compatibility = "amdsmi" ∨ L.compatibility = "gpuvsmi")
    (harg : argument ≠ "gpu")
    (hdata : ∀ dl, data = .map dl →
      "gpu" ∉ keys dl ∧ "gpu" ∉ keys (flatten_dict (isGpuv L) dl))
    (hnd : ∀ out0, L.output = .map out0 → (keys out0).Nodup)
    (hok : (store_output L gpu_id argument data).1 = none) :
    vGet (store_output L gpu_id argument data).2.output "gpu" =
      some (.int gpu_id) := by
  rcases hc with hc | hc
  · have hd : store_output L gpu_id argument data =
        store_output_amdsmi L gpu_id argument data := by
      simp [store_output, hc]
    rw [hd] at hok ⊢
    exact store_amdsmi_gpu_key L gpu_id argument data harg hdata hok
  · have hd : store_output L gpu_id argument data =
        store_output_gpuvsmi L gpu_id argument data := by
      simp [store_output, hc]
    rw [hd] at hok ⊢
    exact store_gpuvsmi_gpu_key L gpu_id argument data harg
      (fun dl h => (hdata dl h).2) hnd hok

/-- C2 counterexample: under Dialect B (rocmsmi) a store call succeeds but
stores nothing, so the record afterwards has no `"gpu"` key at all — the
claim fails for "every configuration". -/
theorem C2_counterexample :
    (store_output ⟨.map [], [], [], "rocmsmi", "json"⟩ 5 "values"
        (.map [("x", .int 1)])).1 = none ∧
    vGet (store_output ⟨.map [], [], [], "rocmsmi", "json"⟩ 5 "values"
        (.map [("x", .int 1)])).2.output "gpu" = none :=
  ⟨rfl, rfl⟩

/-- Witness for C2 (amended) at a concrete Dialect A json store. -/
theorem C2_witness :
    vGet (store_output ⟨.map [], [], [], "amdsmi", "json"⟩ 4 "values"
        (.map [("avg", .int 5)])).2.output "gpu" = some (.int 4) :=
  C2_amended_gpu_key_dialects_A_C ⟨.map [], [], [], "amdsmi", "json"⟩ 4
    "values" (.map [("avg", .int 5)]) (Or.inl rfl) (by decide)
    (by
      intro dl h
      cases h
      constructor
      · decide
      · show "gpu" ∉ keys (flatten_dict (isGpuv ⟨.map [], [], [], "amdsmi", "json"⟩) [("avg", .int 5)])
        simp [flatten_dict, flattenGo, isGpuv, dUpd, keys])
    (by intro out0 h; cases h; simp [keys])
    rfl

/-- The claim's reading of the Dialect-A tabular store ("always pass `data`
through the Flattening Engine first, then merge"): stated from the spec's
words for comparison with `store_output_amdsmi`.  The engine
(`flatten_dict`) is defined on dicts only, so under this reading a non-dict
`data` can only fail. -/
def store_amdsmi_csv_always_flatten (L : AMDSMILogger) (gpu_id : Int)
    (_argument : String) (data : Value) : Option PyErr × AMDSMILogger :=
  match L.output with
  | .map out =>
    let out := dUpd out "gpu" (.int gpu_id)
    match data with
    | .map dl =>
      (none, { L with output := .map (dUpdMany out (flatten_dict (isGpuv L) dl)) })
    | _ => (some .attrError, { L with output := .map out })
  | _ => (some .typeError, L)

/-- C3 (amended): under Dialect A with csv format, `store_output` passes
`data` through the Flattening Engine exactly when `argument == "values"` or
`data` is a Map: a Map `data` is always flattened and merged regardless of
the key; a non-Map `data` under any other key is stored unflattened under
that key; a non-Map `data` under the key `"values"` makes the call fail
(the engine rejects it), so it is never stored unflattened either. -/
theorem C3_amended_csv_flatten_condition (L : AMDSMILogger) (gpu_id : Int)
    (argument : String) (data : Value) (out0 : List (String × Value))
    (hc : L.compatibility = "amdsmi") (hf : L.format = "csv")
    (hout : L.output = .map out0) :
    (∀ dl, data = .map dl →
      store_output L gpu_id argument data =
        (none, { L with output := Value.map (dUpdMany (dUpd out0 "gpu" (.int gpu_id))
                   (flatten_dict (isGpuv L) dl)) })) ∧
    (data.isMap = false → argument ≠ "values" →
      store_output L gpu_id argument data =
        (none, { L with output := Value.map (dUpd (dUpd out0 "gpu" (.int gpu_id))
                   argument data) })) ∧
    (data.isMap = false → argument = "values" →
      (store_output L gpu_id argument data).1 = some .attrError) := by
  have hd : store_output L gpu_id argument data =
      store_output_amdsmi L gpu_id argument data := by
    simp [store_output, hc]
  rw [hd]
  unfold store_output_amdsmi
  have hf1 : ¬ (L.format = "json" ∨ L.format = "human_readable") := by simp [hf]
  rw [if_neg hf1, if_pos hf, hout]
  refine ⟨?_, ?_, ?_⟩
  · intro dl h
    subst h
    simp [Value.isMap]
  · intro hm hv
    cases data with
    | map dl => simp [Value.isMap] at hm
    | str s => simp [Value.isMap, hv]
    | int n => simp [Value.isMap, hv]
    | bool b => simp [Value.isMap, hv]
    | list vs => simp [Value.isMap, hv]
  · intro hm hv
    subst hv
    cases data with
    | map dl => simp [Value.isMap] at hm
    | str s => simp [Value.isMap]
    | int n => simp [Value.isMap]
    | bool b => simp [Value.isMap]
    | list vs => simp [Value.isMap]

/-- C3 counterexample: with key `"power"` and the scalar `"15 W"`, the code
stores the value unflattened and succeeds, while the claim's always-flatten
semantics cannot store it at all — so data is not always passed through the
Flattening Engine. -/
theorem C3_counterexample :
    store_output ⟨.map [], [], [], "amdsmi", "csv"⟩ 0 "power" (.str "15 W") =
      (none, ⟨.map [("gpu", .int 0), ("power", .str "15 W")], [], [],
              "amdsmi", "csv"⟩) ∧
    (store_amdsmi_csv_always_flatten ⟨.map [], [], [], "amdsmi", "csv"⟩ 0
        "power" (.str "15 W")).1 = some .attrError :=
  ⟨rfl, rfl⟩

/-- Witness for C3 (amended) at a concrete non-Map store. -/
theorem C3_witness :
    store_output ⟨.map [], [], [], "amdsmi", "csv"⟩ 2 "power" (.str "x") =
      (none, { (⟨.map [], [], [], "amdsmi", "csv"⟩ : AMDSMILogger) with
        output := Value.map (dUpd (dUpd [] "gpu" (.int 2)) "power" (.str "x")) }) :=
  (C3_amended_csv_flatten_condition ⟨.map [], [], [], "amdsmi", "csv"⟩ 2
    "power" (.str "x") [] rfl rfl rfl).2.1 rfl (by decide)

theorem dictWriterRow_ok_length {fieldnames : List String}
    {rl : List (String × Value)} {row : List Value}
    (h : dictWriterRow fieldnames rl = .ok row) :
    row.length = fieldnames.length := by
  unfold dictWriterRow at h
  split at h
  · cases h
  · cases h
    simp

theorem writeRows_ok_length (fieldnames : List String) (rs : List Value)
    (rows : List (List Value)) (h : writeRows fieldnames rs = .ok rows) :
    ∀ row ∈ rows, row.length = fieldnames.length := by
  induction rs generalizing rows with
  | nil =>
    simp [writeRows] at h
    subst h
    simp
  | cons r rs ih =>
    cases r with
    | map rl =>
      simp only [writeRows] at h
      cases hdw : dictWriterRow fieldnames rl with
      | error e => rw [hdw] at h; cases h
      | ok row0 =>
        rw [hdw] at h
        cases hw2 : writeRows fieldnames rs with
        | error e => rw [hw2] at h; cases h
        | ok rows0 =>
          rw [hw2] at h
          cases h
          intro row hrow
          rcases List.mem_cons.1 hrow with hrow | hrow
          · rw [hrow]
            exact dictWriterRow_ok_length hdw
          · exact ih rows0 hw2 row hrow
    | str s => cases h
    | int n => cases h
    | bool b => cases h
    | list vs => cases h

/-- C6 (amended): in tabular format the header row is exactly the first
record's key list in insertion order, and every data row that is actually
written has exactly one cell per header column — but a second record with a
key absent from the first record is not silently dropped: `csv.DictWriter`
(default `extrasaction='raise'`) makes the write fail with a ValueError, so
it still contributes no new column. -/
theorem C6_amended_header_first_record (L : AMDSMILogger)
    (hl : List (String × Value)) (rest : List Value)
    (hdr : List String) (rows : List (List Value))
    (hm : L.multiple_device_output = Value.map hl :: rest)
    (hok : print_csv_output L true false = .ok (some (hdr, rows))) :
    hdr = keys hl ∧ ∀ row ∈ rows, row.length = hdr.length := by
  simp only [print_csv_output, hm] at hok
  simp at hok
  cases hw : writeRows (List.map (fun p => p.1) hl) (Value.map hl :: rest) with
  | error e => rw [hw] at hok; cases hok
  | ok rows0 =>
    rw [hw] at hok
    cases hok
    refine ⟨rfl, ?_⟩
    exact writeRows_ok_length _ _ _ hw

/-- C6 counterexample: a second record with the extra key `"b"` does not
produce a two-column-truncated output — the csv write fails with a
ValueError (`csv.DictWriter` default `extrasaction='raise'`), so "extra
fields are dropped" is false. -/
theorem C6_counterexample :
    print_csv_output ⟨.map [], [.map [("a", .int 1)],
        .map [("a", .int 1), ("b", .int 2)]], [], "amdsmi", "csv"⟩ true false =
      .error .valueError := rfl

/-- Witness for C6 (amended) at a concrete one-record emission. -/
theorem C6_witness :
    (["a"] : List String) = keys [("a", Value.int 1)] :=
  (C6_amended_header_first_record
    ⟨.map [], [.map [("a", .int 1)]], [], "amdsmi", "csv"⟩
    [("a", .int 1)] [] ["a"] [[.int 1]] rfl rfl).1

/-! ### Structure of `flatten_dict`'s output: non-dict values, unique keys -/

theorem flattenGo_cons_nonmap (g : Bool) (acc : List (String × Value))
    (k : String) (v : Value) (rest : List (String × Value))
    (hv : v.isMap = false) :
    flattenGo g acc ((k, v) :: rest) = flattenGo g (dUpd acc k v) rest := by
  cases v with
  | map cl => simp [Value.isMap] at hv
  | str s => simp only [flattenGo]
  | int n => simp only [flattenGo]
  | bool b => simp only [flattenGo]
  | list vs => simp only [flattenGo]

theorem flattenGo_nonmap (g : Bool) (acc l : List (String × Value)) :
    (∀ p ∈ acc, p.2.isMap = false) →
    ∀ p ∈ flattenGo g acc l, p.2.isMap = false := by
  induction acc, l using flattenGo.induct with
  | g => exact g
  | case1 acc => intro hacc; simpa [flattenGo] using hacc
  | case2 acc k rest cl ih2 ih1 =>
    intro hacc
    simp only [flattenGo]
    apply ih1
    intro p hp
    rcases mem_dUpdMany hp with h1 | h1
    · exact hacc p h1
    · exact ih2 (by simp) p h1
  | case3 acc k v rest hx ih1 =>
    intro hacc
    have hv : v.isMap = false := by
      cases v with
      | map cl => exact (hx cl rfl).elim
      | str s => rfl
      | int n => rfl
      | bool b => rfl
      | list vs => rfl
    rw [flattenGo_cons_nonmap g acc k v rest hv]
    apply ih1
    intro p hp
    rcases mem_dUpd hp with h1 | h1
    · exact hacc p h1
    · rw [h1]; exact hv

theorem flattenGo_keys_nodup (g : Bool) (acc l : List (String × Value)) :
    (keys acc).Nodup → (keys (flattenGo g acc l)).Nodup := by
  induction acc, l using flattenGo.induct with
  | g => exact g
  | case1 acc => intro h; simpa [flattenGo] using h
  | case2 acc k rest cl ih2 ih1 =>
    intro h
    simp only [flattenGo]
    exact ih1 (keys_dUpdMany_nodup h)
  | case3 acc k v rest hx ih1 =>
    intro h
    have hv : v.isMap = false := by
      cases v with
      | map cl => exact (hx cl rfl).elim
      | str s => rfl
      | int n => rfl
      | bool b => rfl
      | list vs => rfl
    rw [flattenGo_cons_nonmap g acc k v rest hv]
    exact ih1 (keys_dUpd_nodup _ _ h)

theorem flattenGo_all_nonmap (g : Bool) (l acc : List (String × Value))
    (h : ∀ p ∈ l, p.2.isMap = false) :
    flattenGo g acc l = dUpdMany acc l := by
  induction l generalizing acc with
  | nil => simp [flattenGo, dUpdMany]
  | cons p l ih =>
    have hp : p.2.isMap = false := h p (.head _)
    obtain ⟨k, v⟩ := p
    rw [flattenGo_cons_nonmap g acc k v l hp]
    rw [ih _ (fun q hq => h q (.tail _ hq))]
    simp [dUpdMany]

theorem dUpd_eq_append (l : List (String × Value)) (k : String) (v : Value)
    (h : ∀ q ∈ l, q.1 ≠ k) : dUpd l k v = l ++ [(k, v)] := by
  induction l with
  | nil => simp [dUpd]
  | cons q l ih =>
    have h1 : q.1 ≠ k := h q (.head _)
    simp [dUpd, h1]
    exact ih (fun p hp => h p (.tail _ hp))

theorem dUpdMany_eq_append (m : List (String × Value)) :
    ∀ acc, (keys m).Nodup → (∀ q ∈ m, q.1 ∉ keys acc) →
      dUpdMany acc m = acc ++ m := by
  induction m with
  | nil => intro acc _ _; simp [dUpdMany]
  | cons q m ih =>
    intro acc hnd hdisj
    rw [show keys (q :: m) = q.1 :: keys m from rfl, List.nodup_cons] at hnd
    have hq : ∀ p ∈ acc, p.1 ≠ q.1 :=
      fun p hp he => hdisj q (.head _) (he ▸ List.mem_map_of_mem (·.1) hp)
    have step : dUpd acc q.1 q.2 = acc ++ [q] := dUpd_eq_append acc q.1 q.2 hq
    calc dUpdMany acc (q :: m)
        = dUpdMany (dUpd acc q.1 q.2) m := by simp [dUpdMany]
      _ = dUpdMany (acc ++ [q]) m := by rw [step]
      _ = (acc ++ [q]) ++ m := by
          apply ih _ hnd.2
          intro p hp hmem
          rw [show keys (acc ++ [q]) = keys acc ++ [q.1] from by simp [keys]] at hmem
          rcases List.mem_append.1 hmem with hm | hm
          · exact hdisj p (.tail _ hp) hm
          · have : p.1 = q.1 := by simpa using hm
            exact hnd.1 (this ▸ List.mem_map_of_mem (·.1) hp)
      _ = acc ++ q :: m := by simp

theorem dUpdMany_nil (m : List (String × Value)) (hnd : (keys m).Nodup) :
    dUpdMany [] m = m := by
  have := dUpdMany_eq_append m [] hnd (by simp [keys])
  simpa using this

/-- C5: the Flattening Engine is idempotent under either dialect setting:
flattening an already-flat record is the identity, because every value of
`flatten_dict`'s output is a non-dict and its keys are unique. -/
theorem C5_flatten_idempotent (g : Bool) (r : List (String × Value)) :
    flatten_dict g (flatten_dict g r) = flatten_dict g r := by
  have h1 : ∀ p ∈ flatten_dict g r, p.2.isMap = false :=
    flattenGo_nonmap g [] r (by simp)
  have h2 : (keys (flatten_dict g r)).Nodup :=
    flattenGo_keys_nodup g [] r (by simp [keys])
  rw [show flatten_dict g (flatten_dict g r) =
        flattenGo g [] (flatten_dict g r) from rfl]
  rw [flattenGo_all_nonmap g _ [] h1]
  exact dUpdMany_nil _ h2

/-! ### Leaves of a record (for the no-data-loss property of flattening).
A leaf is a value reached by descending through dict entries only: scalars
and lists are leaves (`flatten_dict` copies lists unchanged), dicts are
traversed.  Multisets record how many times each leaf value occurs. -/

mutual

/-- The multiset of leaf values of a value. -/
def leafMS : Value → Multiset Value
  | .map l => leafMSM l
  | v => {v}

/-- The multiset of leaf values reachable from a dict's entries. -/
def leafMSM : List (String × Value) → Multiset Value
  | [] => 0
  | (_, v) :: l => leafMS v + leafMSM l

end

/-- The multiset of values of a dict. -/
def valuesMS (l : List (String × Value)) : Multiset Value :=
  (l.map (·.2) : List Value)

theorem valuesMS_cons (q : String × Value) (l : List (String × Value)) :
    valuesMS (q :: l) = q.2 ::ₘ valuesMS l := rfl

theorem leafMSM_cons (q : String × Value) (l : List (String × Value)) :
    leafMSM (q :: l) = leafMS q.2 + leafMSM l := by
  cases q
  simp [leafMSM]

theorem leafMS_nonmap {v : Value} (hv : v.isMap = false) : leafMS v = {v} := by
  cases v with
  | map cl => simp [Value.isMap] at hv
  | str s => simp [leafMS]
  | int n => simp [leafMS]
  | bool b => simp [leafMS]
  | list vs => simp [leafMS]

theorem valuesMS_dUpd_le (l : List (String × Value)) (k : String) (v : Value) :
    valuesMS (dUpd l k v) ≤ valuesMS l + {v} := by
  induction l with
  | nil => simp [valuesMS, dUpd]
  | cons q l ih =>
    by_cases hq : q.1 = k
    · rw [show dUpd (q :: l) k v = (k, v) :: l from by simp [dUpd, hq]]
      rw [valuesMS_cons, valuesMS_cons]
      calc (v ::ₘ valuesMS l : Multiset Value)
          ≤ v ::ₘ (q.2 ::ₘ valuesMS l) :=
            Multiset.cons_le_cons _ (Multiset.le_cons_self _ _)
        _ = q.2 ::ₘ valuesMS l + {v} := by
            rw [← Multiset.singleton_add, ← Multiset.singleton_add, add_assoc,
                add_comm ({v} : Multiset Value), ← add_assoc]
    · rw [show dUpd (q :: l) k v = q :: dUpd l k v from by simp [dUpd, hq]]
      rw [valuesMS_cons, valuesMS_cons]
      calc (q.2 ::ₘ valuesMS (dUpd l k v) : Multiset Value)
          ≤ q.2 ::ₘ (valuesMS l + {v}) := Multiset.cons_le_cons _ ih
        _ = q.2 ::ₘ valuesMS l + {v} := (Multiset.cons_add _ _ _).symm

theorem leafMSM_dUpd_le (l : List (String × Value)) (k : String) (v : Value) :
    leafMSM (dUpd l k v) ≤ leafMSM l + leafMS v := by
  induction l with
  | nil => simp [leafMSM, dUpd, leafMSM_cons]
  | cons q l ih =>
    by_cases hq : q.1 = k
    · rw [show dUpd (q :: l) k v = (k, v) :: l from by simp [dUpd, hq]]
      rw [leafMSM_cons, leafMSM_cons]
      calc leafMS v + leafMSM l
          ≤ leafMS v + (leafMS q.2 + leafMSM l) :=
            add_le_add_left (Multiset.le_add_left _ _) _
        _ = leafMS q.2 + leafMSM l + leafMS v := by
            rw [add_comm]
    · rw [show dUpd (q :: l) k v = q :: dUpd l k v from by simp [dUpd, hq]]
      rw [leafMSM_cons, leafMSM_cons]
      calc leafMS q.2 + leafMSM (dUpd l k v)
          ≤ leafMS q.2 + (leafMSM l + leafMS v) := add_le_add_left ih _
        _ = leafMS q.2 + leafMSM l + leafMS v := (add_assoc _ _ _).symm

theorem leafMSM_foldUpd_le (f : String → String) (m : List (String × Value)) :
    ∀ acc, leafMSM (m.foldl (fun a q => dUpd a (f q.1) q.2) acc) ≤
      leafMSM acc + leafMSM m := by
  induction m with
  | nil => intro acc; simp [leafMSM]
  | cons q m ih =>
    intro acc
    calc leafMSM ((q :: m).foldl (fun a q => dUpd a (f q.1) q.2) acc)
        = leafMSM (m.foldl (fun a q => dUpd a (f q.1) q.2) (dUpd acc (f q.1) q.2)) := by
          simp
      _ ≤ leafMSM (dUpd acc (f q.1) q.2) + leafMSM m := ih _
      _ ≤ (leafMSM acc + leafMS q.2) + leafMSM m :=
          add_le_add_right (leafMSM_dUpd_le _ _ _) _
      _ = leafMSM acc + leafMSM (q :: m) := by
          rw [leafMSM_cons, add_assoc]

theorem leafMSM_vwpkStep_le (acc : List (String × Value)) (p : String × Value) :
    leafMSM (vwpkStep acc p) ≤ leafMSM acc + leafMS p.2 := by
  match p with
  | (pk, .map cl) =>
    have := leafMSM_foldUpd_le (fun ck => pk ++ "_" ++ ck) cl acc
    simpa [vwpkStep, leafMS] using this
  | (pk, .str s) => exact leafMSM_dUpd_le acc pk (.str s)
  | (pk, .int n) => exact leafMSM_dUpd_le acc pk (.int n)
  | (pk, .bool b) => exact leafMSM_dUpd_le acc pk (.bool b)
  | (pk, .list vs) => exact leafMSM_dUpd_le acc pk (.list vs)

theorem leafMSM_buildVWPK_le (cl : List (String × Value)) :
    leafMSM (buildVWPK cl) ≤ leafMSM cl := by
  suffices h : ∀ (cl acc : List (String × Value)),
      leafMSM (cl.foldl vwpkStep acc) ≤ leafMSM acc + leafMSM cl by
    simpa [buildVWPK, leafMSM] using h cl []
  intro cl
  induction cl with
  | nil => intro acc; simp [leafMSM]
  | cons p cl ih =>
    intro acc
    calc leafMSM ((p :: cl).foldl vwpkStep acc)
        = leafMSM (cl.foldl vwpkStep (vwpkStep acc p)) := by simp
      _ ≤ leafMSM (vwpkStep acc p) + leafMSM cl := ih _
      _ ≤ (leafMSM acc + leafMS p.2) + leafMSM cl :=
          add_le_add_right (leafMSM_vwpkStep_le _ _) _
      _ = leafMSM acc + leafMSM (p :: cl) := by
          rw [leafMSM_cons, add_assoc]

theorem leafMSM_vwpkAdjust_le (cl : List (String × Value)) :
    leafMSM (vwpkAdjust cl) ≤ leafMSM cl := by
  unfold vwpkAdjust
  split
  · exact leafMSM_buildVWPK_le cl
  · exact le_refl _

theorem leafMSM_gpuvAdjust_le (g : Bool) (k : String)
    (cl : List (String × Value)) :
    leafMSM (gpuvAdjust g k cl) ≤ leafMSM cl := by
  unfold gpuvAdjust
  split
  · have := leafMSM_foldUpd_le (fun ck => k ++ "_" ++ ck) cl []
    simpa [keyJoinAll, leafMSM] using this
  · exact le_refl _

theorem valuesMS_dUpdMany_le (m : List (String × Value)) :
    ∀ acc, valuesMS (dUpdMany acc m) ≤ valuesMS acc + valuesMS m := by
  induction m with
  | nil => intro acc; simp [dUpdMany, valuesMS]
  | cons q m ih =>
    intro acc
    calc valuesMS (dUpdMany acc (q :: m))
        = valuesMS (dUpdMany (dUpd acc q.1 q.2) m) := by simp [dUpdMany]
      _ ≤ valuesMS (dUpd acc q.1 q.2) + valuesMS m := ih _
      _ ≤ (valuesMS acc + {q.2}) + valuesMS m :=
          add_le_add_right (valuesMS_dUpd_le _ _ _) _
      _ = valuesMS acc + valuesMS (q :: m) := by
          rw [valuesMS_cons, add_assoc, Multiset.singleton_add]

theorem flattenGo_valuesMS_le (g : Bool) (acc l : List (String × Value)) :
    valuesMS (flattenGo g acc l) ≤ valuesMS acc + leafMSM l := by
  induction acc, l using flattenGo.induct with
  | g => exact g
  | case1 acc => simp [flattenGo, leafMSM]
  | case2 acc k rest cl ih2 ih1 =>
    simp only [flattenGo]
    have hinner : valuesMS (flattenGo g [] (gpuvAdjust g k (vwpkAdjust cl))) ≤
        leafMSM cl := by
      have h1 := le_trans (leafMSM_gpuvAdjust_le g k (vwpkAdjust cl))
        (leafMSM_vwpkAdjust_le cl)
      have h2 := ih2
      simp only [valuesMS] at h2
      calc valuesMS (flattenGo g [] (gpuvAdjust g k (vwpkAdjust cl)))
          ≤ valuesMS [] + leafMSM (gpuvAdjust g k (vwpkAdjust cl)) := ih2
        _ = leafMSM (gpuvAdjust g k (vwpkAdjust cl)) := by simp [valuesMS]
        _ ≤ leafMSM cl := h1
    calc valuesMS (flattenGo g
            (dUpdMany acc (flattenGo g [] (gpuvAdjust g k (vwpkAdjust cl)))) rest)
        ≤ valuesMS (dUpdMany acc (flattenGo g [] (gpuvAdjust g k (vwpkAdjust cl))))
            + leafMSM rest := ih1
      _ ≤ (valuesMS acc +
            valuesMS (flattenGo g [] (gpuvAdjust g k (vwpkAdjust cl)))) +
            leafMSM rest := add_le_add_right (valuesMS_dUpdMany_le _ _) _
      _ ≤ (valuesMS acc + leafMSM cl) + leafMSM rest :=
          add_le_add_right (add_le_add_left hinner _) _
      _ = valuesMS acc + leafMSM ((k, Value.map cl) :: rest) := by
          rw [leafMSM_cons, add_assoc]
          simp [leafMS]
  | case3 acc k v rest hx ih1 =>
    have hv : v.isMap = false := by
      cases v with
      | map cl => exact (hx cl rfl).elim
      | str s => rfl
      | int n => rfl
      | bool b => rfl
      | list vs => rfl
    rw [flattenGo_cons_nonmap g acc k v rest hv]
    calc valuesMS (flattenGo g (dUpd acc k v) rest)
        ≤ valuesMS (dUpd acc k v) + leafMSM rest := ih1
      _ ≤ (valuesMS acc + {v}) + leafMSM rest :=
          add_le_add_right (valuesMS_dUpd_le _ _ _) _
      _ = valuesMS acc + leafMSM ((k, v) :: rest) := by
          rw [leafMSM_cons, leafMS_nonmap hv, add_assoc]

theorem valuesMS_card (l : List (String × Value)) :
    Multiset.card (valuesMS l) = l.length := by
  simp [valuesMS]

/-- C4 (amended): flattening loses no leaves exactly when it drops nothing,
i.e. when the flat record has as many entries as the input has leaves — key
collisions during the rebuild (a later entry landing on the key of an
earlier one, as `dict` assignment overwrites) are the only way a leaf can
disappear.  Under that no-collision condition, the multiset of values of
`flatten_dict g r` is exactly the multiset of leaves of `r`, so every leaf
(in particular every scalar leaf) is still present as a value of the
flattened record. -/
theorem C4_amended_no_loss_without_collision (g : Bool)
    (r : List (String × Value))
    (hcard : (flatten_dict g r).length = Multiset.card (leafMSM r)) :
    valuesMS (flatten_dict g r) = leafMSM r ∧
    ∀ v ∈ leafMSM r, v ∈ valuesMS (flatten_dict g r) := by
  have hle : valuesMS (flatten_dict g r) ≤ leafMSM r := by
    have h := flattenGo_valuesMS_le g [] r
    calc valuesMS (flatten_dict g r)
        ≤ valuesMS [] + leafMSM r := h
      _ = leafMSM r := by simp [valuesMS]
  have heq : valuesMS (flatten_dict g r) = leafMSM r :=
    Multiset.eq_of_le_of_card_le hle (by rw [valuesMS_card, hcard])
  exact ⟨heq, fun v hv => heq ▸ hv⟩

/-- C4 counterexample: in `{p: {x: 1}, x: 2}` the scalar leaf `1` is
reachable, but flattening recurses into `p` first (single-entry dict, no
prefix) producing key `x`, which the later top-level `x: 2` then overwrites
— the leaf `1` is not a value of the flattened record. -/
theorem C4_counterexample :
    Value.int 1 ∈ leafMSM [("p", .map [("x", .int 1)]), ("x", .int 2)] ∧
    flatten_dict false [("p", .map [("x", .int 1)]), ("x", .int 2)] =
      [("x", .int 2)] ∧
    Value.int 1 ∉ valuesMS
      (flatten_dict false [("p", .map [("x", .int 1)]), ("x", .int 2)]) := by
  have hf : flatten_dict false [("p", .map [("x", .int 1)]), ("x", .int 2)] =
      [("x", .int 2)] := by
    simp [flatten_dict, flattenGo, gpuvAdjust, vwpkAdjust, dUpdMany, dUpd,
          gpuvKeys]
  refine ⟨by simp [leafMSM, leafMS], hf, ?_⟩
  rw [hf]
  simp [valuesMS]

/-- Witness for C4 (amended) at a concrete collision-free record. -/
theorem C4_witness :
    Value.int 5 ∈ valuesMS (flatten_dict false [("a", Value.int 5)]) :=
  (C4_amended_no_loss_without_collision false [("a", .int 5)] (by
      have hf : flatten_dict false [("a", Value.int 5)] = [("a", Value.int 5)] := by
        simp [flatten_dict, flattenGo, dUpd]
      rw [hf]
      simp [leafMSM, leafMS])).2 (Value.int 5) (by simp [leafMSM, leafMS])
